import Mathlib

/-!
Verification of the onecopy batch copy engine and privilege-elevation
protocol (src/onecopy/io.py, src/onecopy/utils.py, src/onecopy/elevated_copy.py,
src/onecopy/main_window.py).

The file system is modelled as an association list from paths (component
lists, as produced by splitting a path string on the separator) to nodes.
A node is a regular file (its byte content and permission mode bits) or a
directory (with a writability flag for the current user).  The external
cryptographic digest (hashlib) is modelled by the byte stream fed to it:
two digests are equal exactly when the streamed contents are equal.
Machine-level details (inode numbers, timestamps) are not represented;
sizes are the natural-number lengths of the modelled contents.
-/

namespace OneCopy

/-- A path, as the list of its components (`Path("/a/b")` is `["", "a", "b"]`). -/
abbrev FPath := List String

/-- A file-system node: a regular file (content bytes and mode bits) or a
directory (with a flag saying whether the current user may create entries
in it). -/
inductive Node where
  | file (content : List Nat) (mode : Nat)
  | dir (writable : Bool)
deriving DecidableEq, Repr

/-- The file system: an association list from paths to nodes. -/
abbrev FS := List (FPath × Node)

/-- First-match lookup in the file system. -/
def lookupFS (fs : FS) (p : FPath) : Option Node :=
  match fs with
  | [] => none
  | (q, n) :: rest => if q = p then some n else lookupFS rest p

/-- Replace the node at `p`, or append a new entry when `p` is absent. -/
def setFS (fs : FS) (p : FPath) (n : Node) : FS :=
  match fs with
  | [] => [(p, n)]
  | (q, m) :: rest => if q = p then (q, n) :: rest else (q, m) :: setFS rest p n

/-- Delete the entry at `p` (unlink). -/
def delFS (fs : FS) (p : FPath) : FS :=
  fs.filter (fun e => e.1 ≠ p)

/-- Errors raised by the modelled file operations (Python OSError subclasses). -/
inductive IOErr where
  | notFound (p : FPath)
  | permissionDenied (p : FPath)
  | isADirectory (p : FPath)
deriving DecidableEq, Repr

/-- The `stat().st_size` reported for a directory (platform constant; the engine
never copies a directory node directly, tree expansion happens upstream). -/
def DIR_SIZE : Nat := 4096

/-- Default mode bits of a freshly created destination file (0o644). -/
def DEFAULT_MODE : Nat := 420

/-- Model of `Path(p).stat().st_size`: size of a file, the platform constant for a
directory, `FileNotFoundError` when the path is absent. -/
def statSize (fs : FS) (p : FPath) : Except IOErr Nat :=
  match lookupFS fs p with
  | some (.file c _) => .ok c.length
  | some (.dir _) => .ok DIR_SIZE
  | none => .error (.notFound p)

/-- Model of `Path(p).stat().st_mode` restricted to permission bits; directories are
given mode 0 (never consulted by the engine). -/
def statMode (fs : FS) (p : FPath) : Except IOErr Nat :=
  match lookupFS fs p with
  | some (.file _ m) => .ok m
  | some (.dir _) => .ok 0
  | none => .error (.notFound p)

/-- Is `p` an existing regular file? -/
def isFileFS (fs : FS) (p : FPath) : Bool :=
  match lookupFS fs p with
  | some (.file _ _) => true
  | _ => false

/-- Is `p` an existing directory (`Path(p).is_dir()`)? -/
def isDirFS (fs : FS) (p : FPath) : Bool :=
  match lookupFS fs p with
  | some (.dir _) => true
  | _ => false

/-- May the current user create an entry inside directory `d`? -/
def dirOkForCreate (fs : FS) (d : FPath) : Bool :=
  match lookupFS fs d with
  | some (.dir true) => true
  | _ => false

/-- The fixed block size of the streaming loop (1 MiB). -/
def BUFFER : Nat := 1024 * 1024

/-- The block decomposition performed by the read loop (`f.read(BUFFER)` until
empty), written with an explicit fuel so that it reduces structurally; the
fuel `content.length` always suffices because each round consumes at least
one byte of a non-empty remainder. -/
def chunksAux : Nat → List Nat → List (List Nat)
  | 0, _ => []
  | _ + 1, [] => []
  | fuel + 1, b :: bs => (b :: bs).take BUFFER :: chunksAux fuel ((b :: bs).drop BUFFER)

/-- The successive blocks read (and written) by the streaming loop. -/
def chunks (c : List Nat) : List (List Nat) := chunksAux c.length c

/-- Cumulative `copied` counter after each block, starting from `acc`. -/
def cumFrom (acc : Nat) : List (List Nat) → List Nat
  | [] => []
  | c :: rest => (acc + c.length) :: cumFrom (acc + c.length) rest

/-- Observable side-effect events of a single transfer, in program order. -/
inductive Ev where
  | mkdirp (d : FPath)
  | writeBlock (p : FPath) (len : Nat)
  | chmod (p : FPath) (mode : Nat)
  | hashRead (p : FPath)
deriving DecidableEq, Repr

/-- One `mkdir` step of `mkdir(parents=True, exist_ok=True)`: an existing
directory is accepted, an existing file raises, a missing directory is
created when its parent is a writable directory. -/
def mkdirOne (fs : FS) (d : FPath) : Except IOErr FS :=
  match lookupFS fs d with
  | some (.dir _) => .ok fs
  | some (.file _ _) => .error (.permissionDenied d)
  | none =>
    if dirOkForCreate fs d.dropLast then .ok (setFS fs d (.dir true))
    else
      match lookupFS fs d.dropLast with
      | some _ => .error (.permissionDenied d)
      | none => .error (.notFound d.dropLast)

/-- All non-empty prefixes of `p`, shortest first. -/
def prefixesFrom1 (p : FPath) : List FPath :=
  (List.range p.length).map (fun i => p.take (i + 1))

/-- Run `mkdirOne` along a list of directories, stopping at the first
failure; directories created before the failure persist. -/
def mkdirList (fs : FS) (ds : List FPath) : FS × Option IOErr :=
  match ds with
  | [] => (fs, none)
  | d :: rest =>
    match mkdirOne fs d with
    | .ok fs2 => mkdirList fs2 rest
    | .error e => (fs, some e)

/-- Model of `dir.mkdir(parents=True, exist_ok=True)`: create every missing ancestor
of `dir`, shortest first. -/
def mkdirParents (fs : FS) (dir : FPath) : FS × Option IOErr :=
  mkdirList fs (prefixesFrom1 dir)

/-- Model of `open(p, "wb")`: truncate an existing file (keeping its mode bits), or
create a fresh one (default mode) when the containing directory is a
writable directory. -/
def openTrunc (fs : FS) (p : FPath) : Except IOErr FS :=
  match lookupFS fs p with
  | some (.file _ m) => .ok (setFS fs p (.file [] m))
  | some (.dir _) => .error (.isADirectory p)
  | none =>
    if dirOkForCreate fs p.dropLast then .ok (setFS fs p (.file [] DEFAULT_MODE))
    else
      match lookupFS fs p.dropLast with
      | some _ => .error (.permissionDenied p)
      | none => .error (.notFound p.dropLast)

/-- Current mode bits of the file at `p` (default mode when absent). -/
def fileModeAt (fs : FS) (p : FPath) : Nat :=
  match lookupFS fs p with
  | some (.file _ m) => m
  | _ => DEFAULT_MODE

/-- Model of `os.chmod(p, m)` on a regular file. -/
def chmodFS (fs : FS) (p : FPath) (m : Nat) : FS :=
  match lookupFS fs p with
  | some (.file c _) => setFS fs p (.file c m)
  | _ => fs

/-- Model of `_hash(path)`: stream the file at `path` through the digest.  The digest
value is modelled by the byte stream fed to it. -/
def _hash (fs : FS) (p : FPath) : Except IOErr (List Nat) :=
  match lookupFS fs p with
  | some (.file c _) => .ok c
  | some (.dir _) => .error (.isADirectory p)
  | none => .error (.notFound p)

/-- The dictionary returned by `copy_with_progress`:
`{"bytes": total, "hash": digest, "dst": str(dst_p)}`. -/
structure SingleResult where
  bytes : Nat
  hash : Option (List Nat)
  dst : FPath
deriving DecidableEq, Repr

/-- Outcome of one `copy_with_progress` call: the returned value (or the
exception), the resulting file system, the `(copied, total)` pairs passed to
the progress callback, and the side-effect trace. -/
structure SingleRun where
  res : Except IOErr SingleResult
  fs : FS
  progress : List (Nat × Nat)
  trace : List Ev
deriving Repr

/-- Tail of `copy_with_progress` after the write loop: optional digest of the
destination, then the result dictionary. -/
def finishCopy (fs : FS) (dst : FPath) (total : Nat) (prog : List (Nat × Nat))
    (tr : List Ev) (calc_hash : Bool) : SingleRun :=
  if calc_hash then
    match _hash fs dst with
    | .error e => ⟨.error e, fs, prog, tr⟩
    | .ok c => ⟨.ok ⟨total, some c, dst⟩, fs, prog, tr ++ [.hashRead dst]⟩
  else ⟨.ok ⟨total, none, dst⟩, fs, prog, tr⟩

/-- The content the streaming loop reads from the source, observed after
the destination was truncated (a destination aliasing the source therefore
yields its truncated content). -/
def streamContent (fs2 : FS) (src : FPath) : List Nat :=
  match lookupFS fs2 src with
  | some (.file c _) => c
  | _ => []

/-- The part of `copy_with_progress` after both files are open: stream the
blocks into the destination (reporting cumulative progress), then
optionally preserve the source's mode bits and digest the destination. -/
def afterOpen (fs2 : FS) (src dst : FPath) (total : Nat)
    (preserve_mode calc_hash : Bool) : SingleRun :=
  let content := streamContent fs2 src
  let cs := chunks content
  let fs3 := setFS fs2 dst (.file content (fileModeAt fs2 dst))
  let prog := (cumFrom 0 cs).map (fun n => (n, total))
  let writes := cs.map (fun c => Ev.writeBlock dst c.length)
  if preserve_mode then
    match statMode fs3 src with
    | .error e => ⟨.error e, fs3, prog, .mkdirp dst.dropLast :: writes⟩
    | .ok m =>
      finishCopy (chmodFS fs3 dst m) dst total prog
        (.mkdirp dst.dropLast :: writes ++ [.chmod dst m]) calc_hash
  else
    finishCopy fs3 dst total prog (.mkdirp dst.dropLast :: writes) calc_hash

/-- Model of `copy_with_progress(src, dst, preserve_mode, calc_hash, progress_cb)`:
stat the source, ensure the destination's parent directory, open the source
for reading and the destination truncated for writing, then stream and
finish via `afterOpen`. -/
def copy_with_progress (fs0 : FS) (src dst : FPath)
    (preserve_mode calc_hash : Bool) : SingleRun :=
  match statSize fs0 src with
  | .error e => ⟨.error e, fs0, [], []⟩
  | .ok total =>
    match mkdirParents fs0 dst.dropLast with
    | (fs1, some e) => ⟨.error e, fs1, [], []⟩
    | (fs1, none) =>
      match lookupFS fs1 src with
      | some (.dir _) => ⟨.error (.isADirectory src), fs1, [], [.mkdirp dst.dropLast]⟩
      | none => ⟨.error (.notFound src), fs1, [], [.mkdirp dst.dropLast]⟩
      | some (.file _ _) =>
        match openTrunc fs1 dst with
        | .error e => ⟨.error e, fs1, [], [.mkdirp dst.dropLast]⟩
        | .ok fs2 => afterOpen fs2 src dst total preserve_mode calc_hash

/-- The dictionary returned by `copy_batch`: `{"bytes": total_bytes, "count": N}`. -/
structure Summary where
  bytes : Nat
  count : Nat
deriving DecidableEq, Repr

/-- One aggregate progress emission
`progress_cb(aggregate_copied, aggregate_total, index, basename)`. -/
structure PEv where
  aggCopied : Nat
  aggTotal : Nat
  index : Nat
  name : String
deriving DecidableEq, Repr

/-- Model of `Path(p).name`: the final path component. -/
def baseName (p : FPath) : String := p.getLastD ""

/-- The up-front size scan of `copy_batch`: sum `stat().st_size` over every
item source, failing at the first missing source. -/
def scanTotal (fs : FS) (items : List (FPath × FPath)) : Except IOErr Nat :=
  match items with
  | [] => .ok 0
  | it :: rest =>
    match statSize fs it.1 with
    | .error e => .error e
    | .ok s =>
      match scanTotal fs rest with
      | .error e => .error e
      | .ok t => .ok (s + t)

/-- Outcome of the per-item loop of `copy_batch`. -/
structure LoopRun where
  err : Option IOErr
  fs : FS
  progress : List PEv
  dones : List (Nat × SingleResult)
deriving DecidableEq, Repr

/-- The per-item loop of `copy_batch`: drive `copy_with_progress` per item,
lifting per-item progress `(copied, total)` to
`(agg + copied, total_bytes, idx, basename src)`; after an item completes,
advance the aggregate by the source's size as re-statted then, and record the
`file_done_cb(idx, result)` emission. -/
def batchLoop (fs : FS) (items : List (FPath × FPath)) (idx agg total_bytes : Nat)
    (preserve doHash : Bool) : LoopRun :=
  match items with
  | [] => ⟨none, fs, [], []⟩
  | (src, dst) :: rest =>
    let r := copy_with_progress fs src dst preserve doHash
    let evs := r.progress.map (fun pc => ⟨agg + pc.1, total_bytes, idx, baseName src⟩)
    match r.res with
    | .error e => ⟨some e, r.fs, evs, []⟩
    | .ok result =>
      match statSize r.fs src with
      | .error e => ⟨some e, r.fs, evs, []⟩
      | .ok sz =>
        let lr := batchLoop r.fs rest (idx + 1) (agg + sz) total_bytes preserve doHash
        ⟨lr.err, lr.fs, evs ++ lr.progress, (idx, result) :: lr.dones⟩

/-- Outcome of one `copy_batch` call. -/
structure BatchRun where
  res : Except IOErr Summary
  fs : FS
  progress : List PEv
  dones : List (Nat × SingleResult)
deriving Repr

/-- Model of `copy_batch(items, preserve_mode, calc_hash, progress_cb, file_done_cb)`:
sum the source sizes up front (fail-fast on a missing source), then run the
per-item loop, and return `{"bytes": total_bytes, "count": len(items)}`. -/
def copy_batch (fs : FS) (items : List (FPath × FPath))
    (preserve_mode calc_hash : Bool) : BatchRun :=
  match scanTotal fs items with
  | .error e => ⟨.error e, fs, [], []⟩
  | .ok total_bytes =>
    let lr := batchLoop fs items 0 0 total_bytes preserve_mode calc_hash
    match lr.err with
    | some e => ⟨.error e, lr.fs, lr.progress, lr.dones⟩
    | none => ⟨.ok ⟨total_bytes, items.length⟩, lr.fs, lr.progress, lr.dones⟩

/-- Name of the probe marker file used by `path_writable`. -/
def MARKER : String := ".onecopy_write_test"

/-- The directory the probe writes into: the target itself when it is an
existing directory, otherwise its parent (`p if p.is_dir() else p.parent`). -/
def probeBase (fs : FS) (target : FPath) : FPath :=
  if isDirFS fs target then target else target.dropLast

/-- Model of `path_writable(target_path)`: create a marker file in the probe
directory, write to it, unlink it, and report success; any failure reports
`False`.  Returns the verdict together with the file system after the probe.
File-level write permission is identified with the containing directory's
writability flag. -/
def path_writable (fs : FS) (target : FPath) : Bool × FS :=
  let base := probeBase fs target
  let testfile := base ++ [MARKER]
  if dirOkForCreate fs base then
    (true, delFS (setFS fs testfile (.file [111, 107] DEFAULT_MODE)) testfile)
  else
    (false, fs)

/-- Model of `needs_elevation(dest_path) = not path_writable(dest_path)`. -/
def needs_elevation (fs : FS) (dest : FPath) : Bool :=
  !(path_writable fs dest).1

/-- JSON values, as produced by `json.loads` / consumed by `json.dumps`.
Numbers are restricted to the naturals (the protocol only carries byte
counts and item counts). -/
inductive JVal where
  | jnull
  | jbool (b : Bool)
  | jnum (n : Nat)
  | jstr (s : String)
  | jarr (xs : List JVal)
  | jobj (fields : List (String × JVal))

/-- Key lookup in a decoded JSON object (`data["k"]` / `data.get("k")`). -/
def getField (fields : List (String × JVal)) (k : String) : Option JVal :=
  match fields with
  | [] => none
  | (k2, v) :: rest => if k2 = k then some v else getField rest k

/-- Python truthiness (`bool(x)`) of a decoded JSON value. -/
def truthy : JVal → Bool
  | .jnull => false
  | .jbool b => b
  | .jnum n => n ≠ 0
  | .jstr s => s ≠ ""
  | .jarr xs => !xs.isEmpty
  | .jobj fields => !fields.isEmpty

/-- Exceptions the elevated helper can raise past `main` (uncaught: the
process dies with a traceback on the error stream, a non-zero exit status,
and nothing written to standard output). -/
inductive PyExc where
  | ioErr (e : IOErr)
  | keyError (k : String)
  | typeError
  | attributeError
deriving DecidableEq, Repr

/-- Read `item["src"]` and `item["dst"]` from one manifest item. -/
def decodeItem : JVal → Except PyExc (String × String)
  | .jobj fields =>
    match getField fields "src" with
    | none => .error (.keyError "src")
    | some (.jstr s) =>
      match getField fields "dst" with
      | none => .error (.keyError "dst")
      | some (.jstr d) => .ok (s, d)
      | some _ => .error .typeError
    | some _ => .error .typeError
  | _ => .error .typeError

/-- Read each element of a decoded item array in order, stopping at the
first malformed one. -/
def decodeItemsAux : List JVal → Except PyExc (List (String × String))
  | [] => .ok []
  | v :: rest =>
    match decodeItem v with
    | .error e => .error e
    | .ok it =>
      match decodeItemsAux rest with
      | .error e => .error e
      | .ok its => .ok (it :: its)

/-- Read every manifest item (the accesses `item["src"]` / `item["dst"]`
performed by `copy_batch` over the decoded list, gathered up front). -/
def decodeItemList : JVal → Except PyExc (List (String × String))
  | .jarr xs => decodeItemsAux xs
  | _ => .error .typeError

/-- Split a character list on a separator, accumulating the current
component in reverse. -/
def splitAccum (sep : Char) : List Char → List Char → List (List Char)
  | [], acc => [acc.reverse]
  | c :: cs, acc =>
    if c = sep then acc.reverse :: splitAccum sep cs []
    else splitAccum sep cs (c :: acc)

/-- The component list `Path(s)` works on (split on the path separator).
The separator normalization `pathlib` performs (collapsing doubled and
trailing separators) is not modelled; concrete inputs use normalized
paths. -/
def parts (s : String) : FPath := (splitAccum '/' s.data []).map List.asString

/-- JSON encoding of one transfer item, `{"src": ..., "dst": ...}`. -/
def itemObj (it : String × String) : JVal :=
  .jobj [("src", .jstr it.1), ("dst", .jstr it.2)]

/-- The manifest built by the caller before invoking the elevated helper
(`main_window.MainWindow._run_elevated_batch`):
`{"items": [{"src": ..., "dst": ...}, ...], "preserve_mode": ..., "calc_hash": ...}`. -/
def encodeManifest (items : List (String × String)) (pm ch : Bool) : JVal :=
  .jobj
    [ ("items", .jarr (items.map itemObj))
    , ("preserve_mode", .jbool pm)
    , ("calc_hash", .jbool ch) ]

/-- What the helper's manifest branch extracts from its standard input:
the item list (`data.get("items", [])`), and the two options, each taken
from the manifest when the key is present (via `bool(...)`) and from the
command-line default otherwise. -/
def decodeManifest (stdin : JVal) (pm0 ch0 : Bool) :
    Except PyExc (List (String × String) × Bool × Bool) :=
  match stdin with
  | .jobj fields =>
    let itemsJ := (getField fields "items").getD (.jarr [])
    match decodeItemList itemsJ with
    | .error e => .error e
    | .ok sitems =>
      let pm := match getField fields "preserve_mode" with
        | some v => truthy v
        | none => pm0
      let ch := match getField fields "calc_hash" with
        | some v => truthy v
        | none => ch0
      .ok (sitems, pm, ch)
  | _ => .error .attributeError

/-- The parsed argument vector of the elevated helper
(`src`, `dst` positional and optional; `--preserve-mode`, `--hash`,
`--manifest` flags). -/
structure CliArgs where
  src : Option String
  dst : Option String
  preserve_mode : Bool
  calc_hash : Bool
  manifest : Bool
deriving Repr

/-- Termination of one helper invocation: a normal exit (the JSON objects
printed to standard output, and the exit status), or death by an uncaught
exception (nothing on standard output, non-zero status). -/
inductive MainOut where
  | exited (stdout : List JVal) (code : Nat)
  | raised (exc : PyExc)

/-- The JSON object printed on the missing-arguments path. -/
def missingArgsObj : JVal :=
  .jobj [("ok", .jbool false), ("error", .jstr "missing SRC/DST or --manifest")]

/-- JSON encoding of a batch summary dictionary. -/
def summaryObj (s : Summary) : JVal :=
  .jobj [("bytes", .jnum s.bytes), ("count", .jnum s.count)]

/-- JSON encoding of a single-transfer result dictionary (the digest is
rendered as the modelled byte stream). -/
def resultObj (r : SingleResult) : JVal :=
  .jobj
    [ ("bytes", .jnum r.bytes)
    , ("hash", match r.hash with | none => .jnull | some c => .jarr (c.map .jnum))
    , ("dst", .jstr (String.intercalate "/" r.dst)) ]

/-- Python falsiness of an optional string argument (`not args.src`): the
argument is falsy when it was not supplied or is the empty string. -/
def argFalsy : Option String → Bool
  | none => true
  | some s => s == ""

/-- Model of `elevated_copy.main()`: with `--manifest`, decode the manifest from
standard input, run `copy_batch`, print `{"ok": true, "summary": ...}` and
exit 0; without it, a falsy positional (absent or the empty string,
`if not args.src or not args.dst`) prints `{"ok": false, "error": ...}` and
exits 2, otherwise run `copy_with_progress` and print
`{"ok": true, "result": ...}`.  There is no exception handler: a transfer
failure propagates out of `main` uncaught. -/
def elevatedMain (fs : FS) (args : CliArgs) (stdin : JVal) : MainOut :=
  if args.manifest then
    match decodeManifest stdin args.preserve_mode args.calc_hash with
    | .error e => .raised e
    | .ok (sitems, pm, ch) =>
      let run := copy_batch fs (sitems.map (fun it => (parts it.1, parts it.2))) pm ch
      match run.res with
      | .error e => .raised (.ioErr e)
      | .ok s => .exited [.jobj [("ok", .jbool true), ("summary", summaryObj s)]] 0
  else
    if argFalsy args.src || argFalsy args.dst then .exited [missingArgsObj] 2
    else
      let src := args.src.getD ""
      let dst := args.dst.getD ""
      let r := copy_with_progress fs (parts src) (parts dst) args.preserve_mode args.calc_hash
      match r.res with
      | .error e => .raised (.ioErr e)
      | .ok result => .exited [.jobj [("ok", .jbool true), ("result", resultObj result)]] 0

/-- The objects an invocation wrote to standard output (none when it died
by an uncaught exception). -/
def stdoutOf : MainOut → List JVal
  | .exited out _ => out
  | .raised _ => []

/-- Does a printed object carry `"ok": false`? -/
def isOkFalse (v : JVal) : Bool :=
  match v with
  | .jobj fields =>
    match getField fields "ok" with
    | some (.jbool false) => true
    | _ => false
  | _ => false

/-- The `{"ok": false, ...}` report of an invocation: the printed objects
and exit status when standard output carries an `"ok": false` object,
`none` otherwise. -/
def errReport (m : MainOut) : Option (List JVal × Nat) :=
  match m with
  | .exited out code => if out.any isOkFalse then some (out, code) else none
  | .raised _ => none

/-! ### Basic lemmas about the file-system model -/

/-- Dropping the last component of a path yields one of its prefixes. -/
theorem dropLast_isPre (l : FPath) : l.dropLast <+: l :=
  List.dropLast_prefix l

theorem lookupFS_setFS (fs : FS) (p q : FPath) (n : Node) :
    lookupFS (setFS fs q n) p = if q = p then some n else lookupFS fs p := by
  induction fs with
  | nil => simp [setFS, lookupFS]
  | cons e rest ih =>
    obtain ⟨r, m⟩ := e
    by_cases hrq : r = q
    · subst hrq
      by_cases hrp : r = p <;> simp [setFS, lookupFS, hrp]
    · by_cases hrp : r = p
      · subst hrp
        simp [setFS, lookupFS, hrq, Ne.symm hrq]
      · simp [setFS, lookupFS, hrq, hrp, ih]

theorem lookupFS_none_not_mem (fs : FS) (p : FPath) (h : lookupFS fs p = none) :
    ∀ e ∈ fs, e.1 ≠ p := by
  induction fs with
  | nil => simp
  | cons e rest ih =>
    obtain ⟨q, n⟩ := e
    simp only [lookupFS] at h
    by_cases hq : q = p
    · simp [hq] at h
    · simp only [hq, if_false] at h
      intro e he
      rcases List.mem_cons.mp he with rfl | he2
      · exact hq
      · exact ih h e he2

theorem delFS_of_lookup_none (fs : FS) (p : FPath) (h : lookupFS fs p = none) :
    delFS fs p = fs := by
  apply List.filter_eq_self.mpr
  intro e he
  simpa using lookupFS_none_not_mem fs p h e he

theorem setFS_of_lookup_none (fs : FS) (p : FPath) (n : Node)
    (h : lookupFS fs p = none) : setFS fs p n = fs ++ [(p, n)] := by
  induction fs with
  | nil => simp [setFS]
  | cons e rest ih =>
    obtain ⟨q, m⟩ := e
    simp only [lookupFS] at h
    by_cases hq : q = p
    · simp [hq] at h
    · simp only [hq, if_false] at h
      simp [setFS, hq, ih h]

theorem probe_restores (fs : FS) (p : FPath) (n : Node)
    (h : lookupFS fs p = none) : delFS (setFS fs p n) p = fs := by
  rw [setFS_of_lookup_none fs p n h]
  unfold delFS
  rw [List.filter_append, List.filter_eq_self.mpr ?_]
  · simp
  · intro e he
    simpa using lookupFS_none_not_mem fs p h e he

/-! ### Lemmas about the block decomposition and the progress counters -/

theorem chunksAux_join (fuel : Nat) :
    ∀ c : List Nat, c.length ≤ fuel → (chunksAux fuel c).flatten = c := by
  induction fuel with
  | zero =>
    intro c hc
    rw [Nat.le_zero, List.length_eq_zero] at hc
    subst hc
    simp [chunksAux]
  | succ fuel ih =>
    intro c hc
    match c with
    | [] => simp [chunksAux]
    | b :: bs =>
      simp only [chunksAux, List.flatten]
      rw [ih ((b :: bs).drop BUFFER) ?_, List.take_append_drop]
      have h1 : (b :: bs).length ≤ fuel + 1 := hc
      have h2 : ((b :: bs).drop BUFFER).length = (b :: bs).length - BUFFER := by
        simp
      have h3 : 1 ≤ BUFFER := by norm_num [BUFFER]
      omega

theorem chunks_join (c : List Nat) : (chunks c).flatten = c :=
  chunksAux_join c.length c le_rfl

theorem chunks_sum_length (c : List Nat) :
    ((chunks c).map List.length).sum = c.length := by
  rw [← List.length_flatten, chunks_join]

theorem chunks_nil : chunks [] = [] := rfl

/-- Last element of a list with a default, written recursively. -/
def lastD : List Nat → Nat → Nat
  | [], d => d
  | a :: l, _ => lastD l a

/-- Is the list non-decreasing, starting at or above `a`? -/
def nondecFrom (a : Nat) : List Nat → Bool
  | [] => true
  | b :: l => decide (a ≤ b) && nondecFrom b l

theorem lastD_append (l1 l2 : List Nat) (d : Nat) :
    lastD (l1 ++ l2) d = lastD l2 (lastD l1 d) := by
  induction l1 generalizing d with
  | nil => simp [lastD]
  | cons a l1 ih => simp [lastD, ih]

theorem nondecFrom_append (a : Nat) (l1 l2 : List Nat)
    (h1 : nondecFrom a l1 = true) (h2 : nondecFrom (lastD l1 a) l2 = true) :
    nondecFrom a (l1 ++ l2) = true := by
  induction l1 generalizing a with
  | nil => simpa [lastD] using h2
  | cons b l1 ih =>
    simp only [nondecFrom, Bool.and_eq_true, decide_eq_true_eq] at h1 ⊢
    exact ⟨h1.1, ih b h1.2 (by simpa [lastD] using h2)⟩

theorem cumFrom_lastD (cs : List (List Nat)) :
    ∀ acc : Nat, lastD (cumFrom acc cs) acc = acc + (cs.map List.length).sum := by
  induction cs with
  | nil => intro acc; simp [cumFrom, lastD]
  | cons c rest ih =>
    intro acc
    simp only [cumFrom, lastD, List.map_cons, List.sum_cons]
    rw [ih (acc + c.length)]
    omega

theorem cumFrom_nondec (cs : List (List Nat)) :
    ∀ acc : Nat, nondecFrom acc (cumFrom acc cs) = true := by
  induction cs with
  | nil => intro acc; simp [cumFrom, nondecFrom]
  | cons c rest ih =>
    intro acc
    simp only [cumFrom, nondecFrom, Bool.and_eq_true, decide_eq_true_eq]
    exact ⟨Nat.le_add_right _ _, ih (acc + c.length)⟩

theorem cumFrom_shift (cs : List (List Nat)) :
    ∀ a b : Nat, cumFrom (a + b) cs = (cumFrom b cs).map (a + ·) := by
  induction cs with
  | nil => intro a b; simp [cumFrom]
  | cons c rest ih =>
    intro a b
    simp only [cumFrom, List.map_cons]
    rw [Nat.add_assoc, ih a (b + c.length)]

theorem cumFrom_empty_iff (cs : List (List Nat)) (acc : Nat) :
    cumFrom acc cs = [] ↔ cs = [] := by
  cases cs <;> simp [cumFrom]

/-! ### Frame lemmas: a single transfer only touches prefixes of its destination -/

theorem setFS_setFS (fs : FS) (p : FPath) (n1 n2 : Node) :
    setFS (setFS fs p n1) p n2 = setFS fs p n2 := by
  induction fs with
  | nil => simp [setFS]
  | cons e rest ih =>
    obtain ⟨q, m⟩ := e
    by_cases hq : q = p <;> simp [setFS, hq, ih]

theorem mkdirOne_frame {fs fs2 : FS} {d : FPath} (h : mkdirOne fs d = .ok fs2)
    (p : FPath) (hp : p ≠ d) : lookupFS fs2 p = lookupFS fs p := by
  unfold mkdirOne at h
  split at h
  · cases h; rfl
  · cases h
  · split at h
    · cases h
      rw [lookupFS_setFS, if_neg (fun hdp => hp hdp.symm)]
    · split at h <;> cases h

theorem mkdirList_frame (ds : List FPath) (dst : FPath)
    (hds : ∀ d ∈ ds, d <+: dst) :
    ∀ (fs : FS) (p : FPath), ¬ p <+: dst →
      lookupFS (mkdirList fs ds).1 p = lookupFS fs p := by
  induction ds with
  | nil => intro fs p _; rfl
  | cons d rest ih =>
    intro fs p hp
    have hne : p ≠ d := by
      intro hpd
      exact hp (hpd ▸ hds d (List.mem_cons_self d rest))
    unfold mkdirList
    cases hm : mkdirOne fs d with
    | ok fs2 =>
      have h1 := ih (fun d2 hd2 => hds d2 (List.mem_cons_of_mem _ hd2)) fs2 p hp
      simpa [h1] using mkdirOne_frame hm p hne
    | error e => simp

theorem mkdirParents_frame (fs : FS) (dir : FPath) (p : FPath) (hp : ¬ p <+: dir) :
    lookupFS (mkdirParents fs dir).1 p = lookupFS fs p := by
  apply mkdirList_frame (prefixesFrom1 dir) dir ?_ fs p hp
  intro d hd
  unfold prefixesFrom1 at hd
  simp only [List.mem_map, List.mem_range] at hd
  obtain ⟨i, _, rfl⟩ := hd
  exact List.take_prefix _ _

/-- The success shape of the post-open tail: streaming from a source file
`c0`/`m0` (distinct from the destination) into the just-truncated
destination of mode `dm`. -/
theorem afterOpen_spec (fs1 : FS) (src dst : FPath) (total : Nat) (pm ch : Bool)
    (c0 : List Nat) (m0 dm : Nat)
    (hsrc1 : lookupFS fs1 src = some (.file c0 m0)) (hne : src ≠ dst) :
    afterOpen (setFS fs1 dst (.file [] dm)) src dst total pm ch =
      { res := .ok ⟨total, if ch then some c0 else none, dst⟩
      , fs := setFS fs1 dst (.file c0 (if pm then m0 else dm))
      , progress := (cumFrom 0 (chunks c0)).map (fun n => (n, total))
      , trace := .mkdirp dst.dropLast ::
          ((chunks c0).map (fun c => Ev.writeBlock dst c.length)
            ++ (if pm then [Ev.chmod dst m0] else [])
            ++ (if ch then [Ev.hashRead dst] else [])) } := by
  have hset : ∀ n : Node, lookupFS (setFS fs1 dst n) src = some (.file c0 m0) := by
    intro n
    rw [lookupFS_setFS, if_neg (fun h => hne h.symm), hsrc1]
  have hsetdst : ∀ n : Node, lookupFS (setFS fs1 dst n) dst = some n := by
    intro n
    rw [lookupFS_setFS, if_pos rfl]
  have hcontent : streamContent (setFS fs1 dst (.file [] dm)) src = c0 := by
    unfold streamContent
    rw [hset]
  have hmode : fileModeAt (setFS fs1 dst (.file [] dm)) dst = dm := by
    unfold fileModeAt
    rw [hsetdst]
  have hstat3 : statMode (setFS fs1 dst (.file c0 dm)) src = .ok m0 := by
    unfold statMode
    rw [hset]
  have hchmod : chmodFS (setFS fs1 dst (.file c0 dm)) dst m0 = setFS fs1 dst (.file c0 m0) := by
    unfold chmodFS
    rw [hsetdst]
    simp [setFS_setFS]
  have hhash : ∀ m : Nat, _hash (setFS fs1 dst (.file c0 m)) dst = .ok c0 := by
    intro m
    unfold _hash
    rw [hsetdst]
  unfold afterOpen
  rw [hcontent, hmode]
  dsimp only
  rw [setFS_setFS]
  cases pm <;> cases ch <;>
    simp [hstat3, hchmod, hhash, finishCopy]

/-- Successful `open(p, "wb")` always yields the file system with an empty
file of some mode at `p`. -/
theorem openTrunc_ok_shape {fs fs2 : FS} {p : FPath}
    (h : openTrunc fs p = .ok fs2) : ∃ dm, fs2 = setFS fs p (.file [] dm) := by
  unfold openTrunc at h
  split at h
  · cases h
    exact ⟨_, rfl⟩
  · cases h
  · split at h
    · cases h
      exact ⟨DEFAULT_MODE, rfl⟩
    · split at h <;> cases h

/-- Unfolding of a single transfer from a stable source up to the point
where the destination is opened. -/
theorem copy_single_unfold (fs : FS) (src dst : FPath) (pm ch : Bool)
    (c0 : List Nat) (m0 : Nat) (fs1 : FS)
    (hf : lookupFS fs src = some (.file c0 m0))
    (hmk : mkdirParents fs dst.dropLast = (fs1, none))
    (hsrc1 : lookupFS fs1 src = some (.file c0 m0)) :
    copy_with_progress fs src dst pm ch =
      (match openTrunc fs1 dst with
       | .error e => ⟨.error e, fs1, [], [.mkdirp dst.dropLast]⟩
       | .ok fs2 => afterOpen fs2 src dst c0.length pm ch) := by
  have hstat : statSize fs src = .ok c0.length := by
    unfold statSize
    rw [hf]
  unfold copy_with_progress
  rw [hstat]
  dsimp only
  rw [hmk]
  dsimp only
  rw [hsrc1]

/-- Unfolding of a single transfer whose directory creation fails. -/
theorem copy_single_unfold_mkdir_err (fs : FS) (src dst : FPath) (pm ch : Bool)
    (c0 : List Nat) (m0 : Nat) (fs1 : FS) (e : IOErr)
    (hf : lookupFS fs src = some (.file c0 m0))
    (hmk : mkdirParents fs dst.dropLast = (fs1, some e)) :
    copy_with_progress fs src dst pm ch = ⟨.error e, fs1, [], []⟩ := by
  have hstat : statSize fs src = .ok c0.length := by
    unfold statSize
    rw [hf]
  unfold copy_with_progress
  rw [hstat]
  dsimp only
  rw [hmk]

/-- The success shape of a whole single transfer from a stable source:
there is an intermediate file system `fs1` (after directory creation) and a
pre-copy destination mode `dm` such that the run is exactly the streamed
copy. -/
theorem copy_single_ok_run {fs : FS} {src dst : FPath} {pm ch : Bool}
    {c0 : List Nat} {m0 : Nat} {result : SingleResult}
    (hf : lookupFS fs src = some (.file c0 m0)) (hsep : ¬ src <+: dst)
    (hok : (copy_with_progress fs src dst pm ch).res = .ok result) :
    ∃ fs1 dm,
      mkdirParents fs dst.dropLast = (fs1, none) ∧
      lookupFS fs1 src = some (.file c0 m0) ∧
      copy_with_progress fs src dst pm ch =
        { res := .ok ⟨c0.length, if ch then some c0 else none, dst⟩
        , fs := setFS fs1 dst (.file c0 (if pm then m0 else dm))
        , progress := (cumFrom 0 (chunks c0)).map (fun n => (n, c0.length))
        , trace := .mkdirp dst.dropLast ::
            ((chunks c0).map (fun c => Ev.writeBlock dst c.length)
              ++ (if pm then [Ev.chmod dst m0] else [])
              ++ (if ch then [Ev.hashRead dst] else [])) } := by
  have hne : src ≠ dst := fun h => hsep (h ▸ List.prefix_refl _)
  rcases hmk : mkdirParents fs dst.dropLast with ⟨fs1, me⟩
  cases me with
  | some e =>
    rw [copy_single_unfold_mkdir_err fs src dst pm ch c0 m0 fs1 e hf hmk] at hok
    simp at hok
  | none =>
    have hdropPre : ¬ src <+: dst.dropLast :=
      fun h => hsep (h.trans (dropLast_isPre dst))
    have hsrc1 : lookupFS fs1 src = some (.file c0 m0) := by
      have h2 := mkdirParents_frame fs dst.dropLast src hdropPre
      rw [hmk] at h2
      rw [← hf]
      exact h2
    have hu := copy_single_unfold fs src dst pm ch c0 m0 fs1 hf hmk hsrc1
    cases ho : openTrunc fs1 dst with
    | error e =>
      rw [ho] at hu
      rw [hu] at hok
      simp at hok
    | ok fs2 =>
      obtain ⟨dm, rfl⟩ := openTrunc_ok_shape ho
      rw [ho] at hu
      exact ⟨fs1, dm, rfl, hsrc1,
        hu.trans (afterOpen_spec fs1 src dst c0.length pm ch c0 m0 dm hsrc1 hne)⟩

/-- The per-source byte size captured by the up-front scan (0 for non-files;
sources of a well-formed batch are files). -/
def fileSize (fs : FS) (p : FPath) : Nat :=
  match lookupFS fs p with
  | some (.file c _) => c.length
  | _ => 0

/-- Sum of the sizes of all item sources in `fs`. -/
def sizesSum (fs : FS) (items : List (FPath × FPath)) : Nat :=
  (items.map (fun it => fileSize fs it.1)).sum

/-- A `true` verdict of `isFileFS` exhibits the file's content and mode. -/
theorem isFileFS_exists {fs : FS} {p : FPath} (h : isFileFS fs p = true) :
    ∃ c m, lookupFS fs p = some (.file c m) := by
  unfold isFileFS at h
  split at h
  · exact ⟨_, _, by assumption⟩
  · cases h

/-- On success, a single transfer leaves every path that is not a prefix of
the destination untouched. -/
theorem copy_single_ok_frame {fs : FS} {src dst : FPath} {pm ch : Bool}
    {c0 : List Nat} {m0 : Nat} {result : SingleResult}
    (hf : lookupFS fs src = some (.file c0 m0)) (hsep : ¬ src <+: dst)
    (hok : (copy_with_progress fs src dst pm ch).res = .ok result)
    (p : FPath) (hp : ¬ p <+: dst) :
    lookupFS (copy_with_progress fs src dst pm ch).fs p = lookupFS fs p := by
  obtain ⟨fs1, dm, hmk, hsrc1, hrun⟩ := copy_single_ok_run hf hsep hok
  rw [hrun]
  dsimp only
  rw [lookupFS_setFS, if_neg (fun h => hp (by rw [← h]))]
  have h2 := mkdirParents_frame fs dst.dropLast p
    (fun hh => hp (hh.trans (dropLast_isPre dst)))
  rw [hmk] at h2
  exact h2

/-- The sum `sizesSum` only depends on the sources' lookups. -/
theorem sizesSum_congr (fs fs2 : FS) (items : List (FPath × FPath))
    (h : ∀ it ∈ items, lookupFS fs2 it.1 = lookupFS fs it.1) :
    sizesSum fs2 items = sizesSum fs items := by
  unfold sizesSum
  congr 1
  apply List.map_congr_left
  intro it hit
  unfold fileSize
  rw [h it hit]

/-- The up-front size scan over existing source files returns their summed
sizes. -/
theorem scanTotal_files (fs : FS) (items : List (FPath × FPath))
    (H1 : ∀ it ∈ items, isFileFS fs it.1 = true) :
    scanTotal fs items = .ok (sizesSum fs items) := by
  induction items with
  | nil => simp [scanTotal, sizesSum]
  | cons it rest ih =>
    obtain ⟨c, m, hf⟩ := isFileFS_exists (H1 it (List.mem_cons_self it rest))
    have hstat : statSize fs it.1 = .ok c.length := by
      unfold statSize
      rw [hf]
    unfold scanTotal
    rw [hstat, ih (fun it2 h2 => H1 it2 (List.mem_cons_of_mem it h2))]
    unfold sizesSum fileSize
    simp [hf]

/-- Invariant of the per-item loop of `copy_batch` over stable sources:
the emitted aggregate values are non-decreasing from the incoming
aggregate, and the final one (default: the incoming aggregate) is the
incoming aggregate plus the total size of the remaining sources. -/
theorem batchLoop_spec (rest : List (FPath × FPath)) (T : Nat) (pm ch : Bool) :
    ∀ (fs : FS) (idx agg : Nat),
    (∀ it ∈ rest, isFileFS fs it.1 = true) →
    (∀ it ∈ rest, ∀ it2 ∈ rest, ¬ it.1 <+: it2.2) →
    (batchLoop fs rest idx agg T pm ch).err = none →
    nondecFrom agg ((batchLoop fs rest idx agg T pm ch).progress.map PEv.aggCopied) = true ∧
    lastD ((batchLoop fs rest idx agg T pm ch).progress.map PEv.aggCopied) agg
      = agg + sizesSum fs rest := by
  induction rest with
  | nil =>
    intro fs idx agg _ _ _
    simp [batchLoop, sizesSum, nondecFrom, lastD]
  | cons hd tail ih =>
    obtain ⟨src, dst⟩ := hd
    intro fs idx agg H1 H2 herr
    obtain ⟨c0, m0, hf⟩ := isFileFS_exists (H1 (src, dst) (List.mem_cons_self _ tail))
    have hmemhd : (src, dst) ∈ (src, dst) :: tail := List.mem_cons_self _ tail
    have hsep0 : ¬ src <+: dst := H2 (src, dst) hmemhd (src, dst) hmemhd
    cases hres : (copy_with_progress fs src dst pm ch).res with
    | error e =>
      exfalso
      simp [batchLoop, hres] at herr
    | ok result =>
      have hframe : ∀ p, ¬ p <+: dst →
          lookupFS (copy_with_progress fs src dst pm ch).fs p = lookupFS fs p :=
        fun p hp => copy_single_ok_frame hf hsep0 hres p hp
      have hszsrc : statSize (copy_with_progress fs src dst pm ch).fs src = .ok c0.length := by
        unfold statSize
        rw [hframe src hsep0, hf]
      have hb : batchLoop fs ((src, dst) :: tail) idx agg T pm ch =
          ⟨(batchLoop (copy_with_progress fs src dst pm ch).fs tail (idx + 1)
              (agg + c0.length) T pm ch).err,
           (batchLoop (copy_with_progress fs src dst pm ch).fs tail (idx + 1)
              (agg + c0.length) T pm ch).fs,
           ((copy_with_progress fs src dst pm ch).progress.map
              (fun pc => ⟨agg + pc.1, T, idx, baseName src⟩)) ++
             (batchLoop (copy_with_progress fs src dst pm ch).fs tail (idx + 1)
               (agg + c0.length) T pm ch).progress,
           (idx, result) ::
             (batchLoop (copy_with_progress fs src dst pm ch).fs tail (idx + 1)
               (agg + c0.length) T pm ch).dones⟩ := by
        conv_lhs => rw [batchLoop.eq_def]
        dsimp only
        rw [hres, hszsrc]
      rw [hb] at herr ⊢
      dsimp only at herr ⊢
      have hlook : ∀ it ∈ tail,
          lookupFS (copy_with_progress fs src dst pm ch).fs it.1 = lookupFS fs it.1 := by
        intro it hit
        exact hframe it.1 (H2 it (List.mem_cons_of_mem _ hit) (src, dst) hmemhd)
      have H1' : ∀ it ∈ tail,
          isFileFS (copy_with_progress fs src dst pm ch).fs it.1 = true := by
        intro it hit
        unfold isFileFS
        rw [hlook it hit]
        have := H1 it (List.mem_cons_of_mem _ hit)
        unfold isFileFS at this
        exact this
      have H2' : ∀ it ∈ tail, ∀ it2 ∈ tail, ¬ it.1 <+: it2.2 :=
        fun it h1 it2 h2 =>
          H2 it (List.mem_cons_of_mem _ h1) it2 (List.mem_cons_of_mem _ h2)
      have hIH := ih (copy_with_progress fs src dst pm ch).fs (idx + 1)
        (agg + c0.length) H1' H2' herr
      obtain ⟨fs1, dm, hmk, hsrc1, hrun⟩ := copy_single_ok_run hf hsep0 hres
      have hprog : (copy_with_progress fs src dst pm ch).progress =
          (cumFrom 0 (chunks c0)).map (fun n => (n, c0.length)) := by
        rw [hrun]
      have haggs : ((copy_with_progress fs src dst pm ch).progress.map
            (fun pc => (⟨agg + pc.1, T, idx, baseName src⟩ : PEv))).map PEv.aggCopied
          = cumFrom agg (chunks c0) := by
        rw [hprog]
        rw [List.map_map, List.map_map]
        have := cumFrom_shift (chunks c0) agg 0
        rw [Nat.add_zero] at this
        rw [this]
        rfl
      rw [List.map_append, haggs]
      have hlast1 : lastD (cumFrom agg (chunks c0)) agg = agg + c0.length := by
        rw [cumFrom_lastD, chunks_sum_length]
      constructor
      · apply nondecFrom_append
        · exact cumFrom_nondec (chunks c0) agg
        · rw [hlast1]
          exact hIH.1
      · rw [lastD_append, hlast1, hIH.2,
          sizesSum_congr fs (copy_with_progress fs src dst pm ch).fs tail hlook]
        have hcons : sizesSum fs ((src, dst) :: tail) = c0.length + sizesSum fs tail := by
          unfold sizesSum
          simp only [List.map_cons, List.sum_cons]
          have hfsz : fileSize fs (src, dst).1 = c0.length := by
            unfold fileSize
            rw [hf]
          rw [hfsz]
        rw [hcons]
        omega

/-! ### Concrete fixtures used by witnesses and counterexamples -/

/-- A small file system: root, two source files, a writable output directory. -/
def fsW : FS :=
  [ ([""], .dir true)
  , (["", "a"], .file [1, 2, 3] 493)
  , (["", "b"], .file [4, 5] 420)
  , (["", "out"], .dir true) ]

/-- A two-item batch over `fsW`. -/
def itemsW : List (FPath × FPath) :=
  [ (["", "a"], ["", "out", "a2"]), (["", "b"], ["", "out", "b2"]) ]

/-- Scenario C: root, sources 1 and 3 present, source 2 absent. -/
def fsC3 : FS :=
  [ ([""], .dir true)
  , (["", "src1"], .file [10, 20] 420)
  , (["", "src3"], .file [30] 420)
  , (["", "out"], .dir true) ]

/-- Scenario C batch: 3 items, item 2's source does not exist. -/
def itemsC3 : List (FPath × FPath) :=
  [ (["", "src1"], ["", "out", "d1"])
  , (["", "src2"], ["", "out", "d2"])
  , (["", "src3"], ["", "out", "d3"]) ]

/-- File system for the failing elevated invocation: no `/missing` source. -/
def fsC4 : FS := [([""], .dir true), (["", "out"], .dir true)]

/-- Argument vector `onecopy.elevated_copy /missing /out/f` (single-file form). -/
def argsC4 : CliArgs := ⟨some "/missing", some "/out/f", false, false, false⟩

/-! ### Claim C8: the empty batch -/

/-- C8: `copy_batch` on an empty item list returns `{bytes: 0, count: 0}`,
leaves the file system untouched, invokes neither the progress callback nor
the per-file completion callback, and raises no error. -/
theorem copy_batch_empty (fs : FS) (pm ch : Bool) :
    copy_batch fs [] pm ch = ⟨.ok ⟨0, 0⟩, fs, [], []⟩ := rfl

/-! ### Claim C5: manifest round-trip -/

theorem decodeItemsAux_enc (items : List (String × String)) :
    decodeItemsAux (items.map itemObj) = .ok items := by
  induction items with
  | nil => rfl
  | cons it rest ih =>
    have h1 : decodeItem (itemObj it) = .ok it := rfl
    simp [decodeItemsAux, h1, ih]

/-- C5: decoding a manifest encoded by the caller — for any list of items
and any combination of the two boolean options, and irrespective of the
command-line defaults — yields the original item list and option values. -/
theorem manifest_roundtrip (items : List (String × String)) (pm ch pm0 ch0 : Bool) :
    decodeManifest (encodeManifest items pm ch) pm0 ch0 = .ok (items, pm, ch) := by
  have h1 : decodeItemsAux (items.map itemObj) = .ok items := decodeItemsAux_enc items
  simp [decodeManifest, encodeManifest, getField, decodeItemList, h1, truthy]

/-! ### Claim C9: missing containing directory means elevation -/

/-- C9: when the destination is not an existing directory and its containing
directory does not exist, the probe write fails, so `needs_elevation`
reports `true` even though no privilege issue exists. -/
theorem needs_elevation_missing_parent (fs : FS) (p : FPath)
    (h1 : isDirFS fs p = false) (h2 : lookupFS fs p.dropLast = none) :
    needs_elevation fs p = true := by
  unfold needs_elevation path_writable probeBase
  simp [h1, dirOkForCreate, h2]

/-- Witness for C9 at a concrete input: `/nodir` does not exist. -/
theorem needs_elevation_missing_parent_witness :
    isDirFS fsC4 ["", "nodir", "x"] = false ∧
    lookupFS fsC4 ["", "nodir"] = none ∧
    needs_elevation fsC4 ["", "nodir", "x"] = true :=
  ⟨rfl, rfl, needs_elevation_missing_parent fsC4 ["", "nodir", "x"] rfl rfl⟩

/-! ### Claim C7: the elevation probe -/

/-- C7: provided the probe's marker file is not already present,
`needs_elevation` returns `true` exactly when a probe write of the marker
file into the destination's containing directory (the path itself when it
is an existing directory, otherwise its parent) fails, and the probe
leaves the file system exactly as it found it — no residual marker file,
whether the probe succeeds or fails. -/
theorem needs_elevation_iff_probe (fs : FS) (target : FPath)
    (hno : lookupFS fs (probeBase fs target ++ [MARKER]) = none) :
    (needs_elevation fs target = true ↔
      ∃ e, openTrunc fs (probeBase fs target ++ [MARKER]) = .error e)
    ∧ (path_writable fs target).2 = fs := by
  have hdrop : (probeBase fs target ++ [MARKER]).dropLast = probeBase fs target := by
    simp
  constructor
  · unfold needs_elevation path_writable
    cases hw : dirOkForCreate fs (probeBase fs target) with
    | true =>
      simp only [hw, if_true]
      unfold openTrunc
      rw [hno, hdrop, hw]
      simp
    | false =>
      simp only [hw, if_false]
      unfold openTrunc
      rw [hno, hdrop, hw]
      simp only [Bool.false_eq_true, if_false]
      cases hb : lookupFS fs (probeBase fs target) <;> simp
  · unfold path_writable
    cases hw : dirOkForCreate fs (probeBase fs target) with
    | true =>
      simp only [hw, if_true]
      exact probe_restores fs _ _ hno
    | false => simp [hw]

/-- Witness for C7 at a concrete input: probing `/out/x` in `fsW`. -/
theorem needs_elevation_iff_probe_witness :
    lookupFS fsW (probeBase fsW ["", "out", "x"] ++ [MARKER]) = none ∧
    ((needs_elevation fsW ["", "out", "x"] = true ↔
      ∃ e, openTrunc fsW (probeBase fsW ["", "out", "x"] ++ [MARKER]) = .error e)
    ∧ (path_writable fsW ["", "out", "x"]).2 = fsW) :=
  ⟨rfl, needs_elevation_iff_probe fsW ["", "out", "x"] rfl⟩

/-! ### Claim C10: manifest without an `items` field -/

/-- C10: in manifest mode, a JSON object lacking the `items` field is
treated as an empty batch: the helper prints
`{"ok": true, "summary": {"bytes": 0, "count": 0}}` and exits with
status 0, instead of reporting a malformed manifest. -/
theorem elevated_main_no_items_key (fs : FS) (args : CliArgs)
    (fields : List (String × JVal))
    (hm : args.manifest = true) (hi : getField fields "items" = none) :
    elevatedMain fs args (.jobj fields) =
      .exited
        [.jobj [("ok", .jbool true),
                ("summary", .jobj [("bytes", .jnum 0), ("count", .jnum 0)])]] 0 := by
  unfold elevatedMain decodeManifest
  simp only [hm, if_true, hi, Option.getD_none]
  have h0 : decodeItemList (.jarr []) = .ok [] := rfl
  rw [h0]
  simp [copy_batch, scanTotal, batchLoop, summaryObj]

/-- Witness for C10 at a concrete input: `--manifest` with stdin `{}`. -/
theorem elevated_main_no_items_key_witness :
    (⟨none, none, false, false, true⟩ : CliArgs).manifest = true ∧
    getField [] "items" = none ∧
    elevatedMain fsC4 ⟨none, none, false, false, true⟩ (.jobj []) =
      .exited
        [.jobj [("ok", .jbool true),
                ("summary", .jobj [("bytes", .jnum 0), ("count", .jnum 0)])]] 0 :=
  ⟨rfl, rfl, elevated_main_no_items_key fsC4 ⟨none, none, false, false, true⟩ [] rfl rfl⟩

/-! ### Claim C3: batch with a missing middle source (corrected) -/

/-- C3 counterexample: in scenario C (three items, item 2's source absent)
the batch does fail with `NotFound` naming item 2's source, but item 1's
destination does **not** exist after the failure — the up-front size scan
fails before any byte of item 1 is copied, so the file system is untouched
and no per-file completion was emitted. -/
theorem copy_batch_scenarioC_counterexample :
    (copy_batch fsC3 itemsC3 true false).res = .error (.notFound ["", "src2"]) ∧
    lookupFS (copy_batch fsC3 itemsC3 true false).fs ["", "out", "d1"] = none ∧
    (copy_batch fsC3 itemsC3 true false).dones = [] ∧
    (copy_batch fsC3 itemsC3 true false).fs = fsC3 :=
  ⟨rfl, rfl, rfl, rfl⟩

/-- C3 amended: for a batch of 3 items whose first source exists and whose
second source is absent, `copy_batch` fails during the up-front size scan
with `NotFound` naming item 2's source, before any item (including item 1)
is attempted: the file system is returned unchanged, no progress was
emitted and no per-file completion was reported. -/
theorem copy_batch_missing_middle_failfast (fs : FS) (s1 d1 s2 d2 s3 d3 : FPath)
    (pm ch : Bool) (h1 : isFileFS fs s1 = true) (h2 : lookupFS fs s2 = none) :
    copy_batch fs [(s1, d1), (s2, d2), (s3, d3)] pm ch =
      ⟨.error (.notFound s2), fs, [], []⟩ := by
  unfold isFileFS at h1
  cases hl : lookupFS fs s1 with
  | none => rw [hl] at h1; simp at h1
  | some n =>
    cases n with
    | file c m =>
      unfold copy_batch
      simp [scanTotal, statSize, hl, h2]
    | dir w => rw [hl] at h1; simp at h1

/-- Witness for the amended C3 at the concrete scenario-C input. -/
theorem copy_batch_missing_middle_failfast_witness :
    isFileFS fsC3 ["", "src1"] = true ∧
    lookupFS fsC3 ["", "src2"] = none ∧
    copy_batch fsC3 itemsC3 true false = ⟨.error (.notFound ["", "src2"]), fsC3, [], []⟩ :=
  ⟨rfl, rfl,
    copy_batch_missing_middle_failfast fsC3 ["", "src1"] ["", "out", "d1"]
      ["", "src2"] ["", "out", "d2"] ["", "src3"] ["", "out", "d3"] true false rfl rfl⟩

/-! ### Claim C4: elevated helper on a transfer failure (corrected) -/

/-- C4 counterexample: invoking the helper as
`elevated_copy /missing /out/f` on a file system without `/missing` makes
the transfer fail, yet the process dies by an uncaught exception: nothing —
in particular no `{"ok": false, "error": ...}` object — is written to
standard output. -/
theorem elevated_main_failure_counterexample :
    (copy_with_progress fsC4 (parts "/missing") (parts "/out/f") false false).res
        = .error (.notFound ["", "missing"]) ∧
    elevatedMain fsC4 argsC4 .jnull = .raised (.ioErr (.notFound ["", "missing"])) ∧
    stdoutOf (elevatedMain fsC4 argsC4 .jnull) = [] :=
  ⟨rfl, rfl, rfl⟩

/-! ### Claims C1 and C2: batch summary and aggregate progress -/

/-- C1: for a non-empty batch over sources that all exist and are not
overwritten during the run, a summary returned by `copy_batch` reports the
sum of the source sizes captured at batch start in its `bytes` field and
the number of items in its `count` field. -/
theorem copy_batch_bytes_count (fs : FS) (items : List (FPath × FPath)) (pm ch : Bool)
    (s : Summary)
    (hne : items ≠ [])
    (H1 : items.all (fun it => isFileFS fs it.1) = true)
    (H2 : items.all (fun it => items.all (fun it2 => !(it.1.isPrefixOf it2.2))) = true)
    (hok : (copy_batch fs items pm ch).res = .ok s) :
    s.bytes = sizesSum fs items ∧ s.count = items.length := by
  have H1' : ∀ it ∈ items, isFileFS fs it.1 = true := by
    simpa [List.all_eq_true] using H1
  have hscan : scanTotal fs items = .ok (sizesSum fs items) := scanTotal_files fs items H1'
  unfold copy_batch at hok
  rw [hscan] at hok
  dsimp only at hok
  cases hle : (batchLoop fs items 0 0 (sizesSum fs items) pm ch).err with
  | some e =>
    rw [hle] at hok
    simp at hok
  | none =>
    rw [hle] at hok
    dsimp only at hok
    injection hok with h2
    rw [← h2]
    exact ⟨rfl, rfl⟩

/-- Witness for C1 at a concrete two-item batch. -/
theorem copy_batch_bytes_count_witness :
    (itemsW ≠ [] ∧
     itemsW.all (fun it => isFileFS fsW it.1) = true ∧
     itemsW.all (fun it => itemsW.all (fun it2 => !(it.1.isPrefixOf it2.2))) = true ∧
     (copy_batch fsW itemsW true true).res = .ok ⟨5, 2⟩) ∧
    ((⟨5, 2⟩ : Summary).bytes = sizesSum fsW itemsW ∧
     (⟨5, 2⟩ : Summary).count = itemsW.length) :=
  ⟨⟨by decide, by decide, by decide, rfl⟩,
    copy_batch_bytes_count fsW itemsW true true ⟨5, 2⟩ (by decide) (by decide)
      (by decide) rfl⟩

/-- Conversion of the boolean separation hypothesis to its propositional
form. -/
theorem all_sep_prop {items : List (FPath × FPath)}
    (H2 : items.all (fun it => items.all (fun it2 => !(it.1.isPrefixOf it2.2))) = true) :
    ∀ it ∈ items, ∀ it2 ∈ items, ¬ it.1 <+: it2.2 := by
  intro it h1 it2 h2 hpre
  simp only [List.all_eq_true, Bool.not_eq_true'] at H2
  have hb := List.isPrefixOf_iff_prefix.mpr hpre
  rw [H2 it h1 it2 h2] at hb
  cases hb

/-- C2: over stable sources, the aggregate progress values emitted by
`copy_batch` are non-decreasing across the whole batch, and the final one
(taking the batch total as the default when nothing was emitted, which
happens exactly when the total is 0) equals the aggregate total reported in
the summary. -/
theorem copy_batch_progress_monotone_final (fs : FS) (items : List (FPath × FPath))
    (pm ch : Bool) (s : Summary)
    (H1 : items.all (fun it => isFileFS fs it.1) = true)
    (H2 : items.all (fun it => items.all (fun it2 => !(it.1.isPrefixOf it2.2))) = true)
    (hok : (copy_batch fs items pm ch).res = .ok s) :
    nondecFrom 0 ((copy_batch fs items pm ch).progress.map PEv.aggCopied) = true ∧
    lastD ((copy_batch fs items pm ch).progress.map PEv.aggCopied) 0 = s.bytes := by
  have H1' : ∀ it ∈ items, isFileFS fs it.1 = true := by
    simpa [List.all_eq_true] using H1
  have H2' := all_sep_prop H2
  have hscan : scanTotal fs items = .ok (sizesSum fs items) := scanTotal_files fs items H1'
  unfold copy_batch at hok ⊢
  rw [hscan] at hok ⊢
  dsimp only at hok ⊢
  cases hle : (batchLoop fs items 0 0 (sizesSum fs items) pm ch).err with
  | some e =>
    rw [hle] at hok
    simp at hok
  | none =>
    rw [hle] at hok
    dsimp only at hok
    injection hok with h2
    have hspec := batchLoop_spec items (sizesSum fs items) pm ch fs 0 0 H1' H2' hle
    rw [← h2]
    dsimp only
    rw [Nat.zero_add] at hspec
    exact hspec

/-- Witness for C2 at a concrete two-item batch. -/
theorem copy_batch_progress_monotone_final_witness :
    (itemsW.all (fun it => isFileFS fsW it.1) = true ∧
     itemsW.all (fun it => itemsW.all (fun it2 => !(it.1.isPrefixOf it2.2))) = true ∧
     (copy_batch fsW itemsW true false).res = .ok ⟨5, 2⟩) ∧
    (nondecFrom 0 ((copy_batch fsW itemsW true false).progress.map PEv.aggCopied) = true ∧
     lastD ((copy_batch fsW itemsW true false).progress.map PEv.aggCopied) 0
       = (⟨5, 2⟩ : Summary).bytes) :=
  ⟨⟨by decide, by decide, rfl⟩,
    copy_batch_progress_monotone_final fsW itemsW true false ⟨5, 2⟩ (by decide)
      (by decide) rfl⟩

/-! ### Claim C6: mode preservation order and digest target -/

/-- Is the event a block write? -/
def isWriteEv : Ev → Bool
  | .writeBlock _ _ => true
  | _ => false

/-- Is the event a permission-bit application? -/
def isChmodEv : Ev → Bool
  | .chmod _ _ => true
  | _ => false

/-- Content of the file at `p` (empty for non-files). -/
def contentAt (fs : FS) (p : FPath) : List Nat :=
  match lookupFS fs p with
  | some (.file c _) => c
  | _ => []

/-- C6: on a completed single transfer from a stable source, the trace
splits into a chmod-free part followed by a write-free part (so the
source's permission bits are applied only after the full byte stream,
never before — and with `preserve_mode` the destination ends with the
source's mode bits); and with `calc_hash` the digest in the result is the
digest of the destination file's contents after the write completed. -/
theorem copy_single_chmod_after_writes_digest_dest (fs : FS) (src dst : FPath)
    (pm ch : Bool) (c0 : List Nat) (m0 : Nat) (result : SingleResult)
    (hf : lookupFS fs src = some (.file c0 m0))
    (hsep : src.isPrefixOf dst = false)
    (hok : (copy_with_progress fs src dst pm ch).res = .ok result) :
    (∃ pre post,
      (copy_with_progress fs src dst pm ch).trace = pre ++ post ∧
      (∀ e ∈ pre, isChmodEv e = false) ∧
      (∀ e ∈ post, isWriteEv e = false)) ∧
    (pm = true → lookupFS (copy_with_progress fs src dst pm ch).fs dst
        = some (.file c0 m0)) ∧
    (ch = true → result.hash
        = some (contentAt (copy_with_progress fs src dst pm ch).fs dst)) := by
  have hsep' : ¬ src <+: dst := by
    intro hp
    have hb := List.isPrefixOf_iff_prefix.mpr hp
    rw [hsep] at hb
    cases hb
  obtain ⟨fs1, dm, hmk, hsrc1, hrun⟩ := copy_single_ok_run hf hsep' hok
  have hres := hok
  rw [hrun] at hres
  dsimp only at hres
  injection hres with hres2
  have hcontent : contentAt (copy_with_progress fs src dst pm ch).fs dst = c0 := by
    rw [hrun]
    unfold contentAt
    dsimp only
    rw [lookupFS_setFS, if_pos rfl]
  refine ⟨⟨.mkdirp dst.dropLast :: (chunks c0).map (fun c => Ev.writeBlock dst c.length),
      (if pm then [Ev.chmod dst m0] else []) ++ (if ch then [Ev.hashRead dst] else []),
      ?_, ?_, ?_⟩, ?_, ?_⟩
  · rw [hrun]
    dsimp only
    simp [List.append_assoc]
  · intro e he
    rcases List.mem_cons.mp he with rfl | he2
    · rfl
    · obtain ⟨c, _, rfl⟩ := List.mem_map.mp he2
      rfl
  · intro e he
    rcases List.mem_append.mp he with h1 | h1
    · cases pm with
      | false => simp at h1
      | true =>
        simp at h1
        subst h1
        rfl
    · cases ch with
      | false => simp at h1
      | true =>
        simp at h1
        subst h1
        rfl
  · intro hpm
    rw [hrun]
    dsimp only
    rw [lookupFS_setFS, if_pos rfl, hpm]
    simp
  · intro hch
    rw [hcontent, ← hres2]
    dsimp only
    rw [hch]
    simp

/-- Witness for C6 at a concrete transfer with both options set. -/
theorem copy_single_chmod_after_witness :
    (lookupFS fsW ["", "a"] = some (.file [1, 2, 3] 493) ∧
     (["", "a"] : FPath).isPrefixOf ["", "out", "a2"] = false ∧
     (copy_with_progress fsW ["", "a"] ["", "out", "a2"] true true).res
       = .ok ⟨3, some [1, 2, 3], ["", "out", "a2"]⟩) ∧
    ((∃ pre post,
      (copy_with_progress fsW ["", "a"] ["", "out", "a2"] true true).trace = pre ++ post ∧
      (∀ e ∈ pre, isChmodEv e = false) ∧
      (∀ e ∈ post, isWriteEv e = false)) ∧
    (true = true → lookupFS (copy_with_progress fsW ["", "a"] ["", "out", "a2"] true true).fs
        ["", "out", "a2"] = some (.file [1, 2, 3] 493)) ∧
    (true = true → (⟨3, some [1, 2, 3], ["", "out", "a2"]⟩ : SingleResult).hash
        = some (contentAt (copy_with_progress fsW ["", "a"] ["", "out", "a2"] true true).fs
            ["", "out", "a2"]))) :=
  ⟨⟨rfl, rfl, rfl⟩,
    copy_single_chmod_after_writes_digest_dest fsW ["", "a"] ["", "out", "a2"] true true
      [1, 2, 3] 493 ⟨3, some [1, 2, 3], ["", "out", "a2"]⟩ rfl rfl rfl⟩

/-- C4 amended: the helper writes an `{"ok": false, "error": ...}` object
(and then exits, with status 2) exactly when it was invoked without
`--manifest` and with a falsy positional argument — one that is absent or
the empty string, Python's `if not args.src or not args.dst`; on a
transfer failure it instead dies by an uncaught exception, exiting
non-zero with nothing on standard output. -/
theorem elevated_main_err_object_iff_missing_args (fs : FS) (args : CliArgs)
    (stdin : JVal) :
    errReport (elevatedMain fs args stdin) =
      if args.manifest = false ∧ (argFalsy args.src = true ∨ argFalsy args.dst = true)
      then some ([missingArgsObj], 2) else none := by
  unfold elevatedMain
  cases hm : args.manifest with
  | true =>
    simp only [hm, if_true]
    cases hd : decodeManifest stdin args.preserve_mode args.calc_hash with
    | error e => simp [errReport]
    | ok t =>
      obtain ⟨sitems, pm, ch⟩ := t
      cases hr : (copy_batch fs (sitems.map fun it => (parts it.1, parts it.2)) pm ch).res with
      | error e => simp [hr, errReport]
      | ok s => simp [hr, errReport, isOkFalse, getField]
  | false =>
    cases hg : (argFalsy args.src || argFalsy args.dst) with
    | true =>
      rw [Bool.or_eq_true] at hg
      simp [hm, hg, errReport, isOkFalse, missingArgsObj, getField]
    | false =>
      rw [Bool.or_eq_false_iff] at hg
      cases hr : (copy_with_progress fs (parts (args.src.getD "")) (parts (args.dst.getD ""))
          args.preserve_mode args.calc_hash).res with
      | error e => simp [hm, hg.1, hg.2, hr, errReport]
      | ok result => simp [hm, hg.1, hg.2, hr, errReport, isOkFalse, getField]

end OneCopy
